import Mathlib

/-!
Shallow embedding of `src/app.py`, a Streamlit quiz application.

Python strings are modelled as `List Char` (`Str`); spreadsheet cells as
`Option Str` (`none` models a pandas NaN, `some s` a cell whose `str()` is
`s`); the spreadsheet as a list of rows, a row being its list of cells
(missing trailing cells read as NaN); `pandas.read_excel` failure is the
`Except.error` case of the sheet input.  The Streamlit session state is a
structure, and each button/widget interaction of `main` is an `Event`
consumed by a `step` function written from the handlers in `main`.
Python exceptions inside the `try:` blocks of `load_questions` and
`load_sections_and_modules` are modelled with `Except Unit`.
-/

abbrev Str := List Char

/-- Python str.strip() removes these characters (ASCII whitespace) at both ends. -/
def pyIsSpace (c : Char) : Bool :=
  c.toNat == 32 || c.toNat == 9 || c.toNat == 10 || c.toNat == 13 ||
  c.toNat == 11 || c.toNat == 12

/-- Python `s.strip()`. -/
def pyStrip (s : Str) : Str :=
  ((s.dropWhile pyIsSpace).reverse.dropWhile pyIsSpace).reverse

/-- Python `str.lower` on one ASCII character. -/
def pyLowerChar (c : Char) : Char :=
  if 65 ≤ c.toNat ∧ c.toNat ≤ 90 then Char.ofNat (c.toNat + 32) else c

/-- Python `str.upper` on one ASCII character. -/
def pyUpperChar (c : Char) : Char :=
  if 97 ≤ c.toNat ∧ c.toNat ≤ 122 then Char.ofNat (c.toNat - 32) else c

/-- Python `s.lower()`. -/
def pyLower (s : Str) : Str := s.map pyLowerChar

/-- Python `s.upper()`. -/
def pyUpper (s : Str) : Str := s.map pyUpperChar

/-- The character class `[a-dA-D]` of the regex in `is_answer_correct`. -/
def isAnswerLetter (c : Char) : Bool :=
  decide ((97 ≤ c.toNat ∧ c.toNat ≤ 100) ∨ (65 ≤ c.toNat ∧ c.toNat ≤ 68))

/-- Whether `s` matches the anchored regex `^[a-dA-D]\)` at its start. -/
def startsLetterTag (s : Str) : Bool :=
  match s with
  | c :: p :: _ => isAnswerLetter c && p == ')'
  | _ => false

/-- The call re.sub of the anchored pattern: drop a leading letter-parenthesis tag. -/
def dropLetterTag (s : Str) : Str :=
  match s with
  | c :: p :: rest => if isAnswerLetter c && p == ')' then rest else s
  | _ => s

/-- The normalisation both answers undergo in `is_answer_correct`:
`re.sub(r"^[a-dA-D]\)", "", s).strip()` followed by `.lower()`. -/
def normalize_answer (s : Str) : Str := pyLower (pyStrip (dropLetterTag s))

/-- A spreadsheet cell: `none` is NaN, `some s` a cell rendering as `s`. -/
abbrev Cell := Option Str

/-- One question dictionary built by `load_questions`. -/
structure Question where
  question : Cell
  options : List Str
  correct_letter : Str
  correct_answer : Str
  description : Str
deriving DecidableEq

/-- The function is_answer_correct(question, user_answer) from src/app.py. -/
def is_answer_correct (q : Question) (ua : Option Str) : Bool :=
  match ua with
  | none => false
  | some u => normalize_answer u == normalize_answer q.correct_answer

/-- The session dict st.session_state.user_answers, keyed by question index,
kept in insertion order with unique keys. -/
abbrev Answers := List (Nat × Str)

/-- Dict lookup `d[k]` / `d.get(k)`. -/
def alookup : Answers → Nat → Option Str
  | [], _ => none
  | p :: rest, k => if p.1 == k then some p.2 else alookup rest k

/-- Dict assignment `d[k] = v`: replace in place if present, else append. -/
def insertAnswer : Answers → Nat → Str → Answers
  | [], k, v => [(k, v)]
  | p :: rest, k, v => if p.1 == k then (k, v) :: rest else p :: insertAnswer rest k v

/-- The keys of the dict, in order. -/
def akeys (a : Answers) : List Nat := a.map (fun p => p.1)

/-- The per-question test in `calculate_score`:
`user_ans.startswith(q['correct_letter'].upper() + ')')`. -/
def scoreTest (q : Question) (ua : Str) : Bool :=
  (pyUpper q.correct_letter ++ [')']).isPrefixOf ua

/-- The accumulation loop of `calculate_score`, starting at index `i`. -/
def calcFrom (ans : Answers) : Nat → List Question → Nat
  | _, [] => 0
  | i, q :: rest =>
    (match alookup ans i with
     | some ua => if scoreTest q ua then 1 else 0
     | none => 0) + calcFrom ans (i + 1) rest

/-- The function calculate_score(questions) from src/app.py (the session dict of user
answers passed explicitly): returns `(correct, total)`. -/
def calculate_score (qs : List Question) (ans : Answers) : Nat × Nat :=
  (calcFrom ans 0 qs, qs.length)

/-- The review loop of `main` (results page): number of questions rendered
as correct, i.e. with `is_answer_correct(question, user_answers.get(i))`. -/
def reviewCount (ans : Answers) : Nat → List Question → Nat
  | _, [] => 0
  | i, q :: rest =>
    (if is_answer_correct q (alookup ans i) then 1 else 0) + reviewCount ans (i + 1) rest

/-- Helper to write string literals of the model. -/
def str (s : String) : Str := s.data

/-- A spreadsheet row; `iloc` below pads missing trailing cells with NaN. -/
structure Row where
  cells : List Cell
deriving DecidableEq

/-- Cell access row.iloc[i]. -/
def Row.iloc (r : Row) (i : Nat) : Cell := r.cells.getD i none

/-- The data rows of `questions.xlsx` as read by `pd.read_excel`. -/
abbrev Sheet := List Row

/-- Stringifying a cell after the pd.isna guard: NaN becomes the empty string. -/
def cellStr (c : Cell) : Str := c.getD []

/-- Pandas `==` on cells: NaN compares unequal to everything, NaN included. -/
def cellEq : Cell → Cell → Bool
  | some a, some b => a == b
  | _, _ => false

/-- Python `ord`: defined only on a string of length one, else `TypeError`. -/
def pyOrd (s : Str) : Except Unit Nat :=
  match s with
  | [c] => .ok c.toNat
  | _ => .error ()

/-- Python list indexing `xs[i]` with an `int` index: negative indices count
from the end, out-of-range raises `IndexError`. -/
def pyGetItem (xs : List Str) (i : Int) : Except Unit Str :=
  let j : Int := if i < 0 then i + xs.length else i
  if 0 ≤ j ∧ j < xs.length then .ok (xs.getD j.toNat []) else .error ()

/-- The options built for one row: columns B–E stringified, NaN as `""`,
then the falsy (empty) ones filtered out. -/
def mkOptions (r : Row) : List Str :=
  ([cellStr (r.iloc 1), cellStr (r.iloc 2), cellStr (r.iloc 3),
    cellStr (r.iloc 4)]).filter (fun o => !o.isEmpty)

/-- The key cell: str(row.iloc[5]).strip().lower() when not NaN, else the empty string. -/
def mkCorrectLetter (r : Row) : Str :=
  match r.iloc 5 with
  | none => []
  | some s => pyLower (pyStrip s)

/-- Building one question dict in the loop of `load_questions`; the
`options[ord(correct_letter) - ord('a')]` expression can raise. -/
def mkQuestion (r : Row) : Except Unit Question :=
  let options := mkOptions r
  let cl := mkCorrectLetter r
  match (if cl.isEmpty then Except.ok ([] : Str)
         else do
           let n ← pyOrd cl
           pyGetItem options ((n : Int) - 97)) with
  | .error e => .error e
  | .ok ca => .ok ⟨r.iloc 0, options, cl, ca, cellStr (r.iloc 6)⟩

/-- The row filter of `load_questions`: section column H and module column I
both match the selection (pandas `==` semantics). -/
def rowMatches (r : Row) (sec mo : Cell) : Bool :=
  cellEq (r.iloc 7) sec && cellEq (r.iloc 8) mo

/-- The question-building loop: Python appends as it iterates, but the first
exception discards everything, so it behaves as a monadic map. -/
def buildQuestions : List Row → Except Unit (List Question)
  | [] => .ok []
  | r :: rest => do
    let q ← mkQuestion r
    let qs ← buildQuestions rest
    .ok (q :: qs)

/-- The body of the `try:` in `load_questions`. -/
def loadQuestionsExc (inp : Except Unit Sheet) (sec mo : Cell) :
    Except Unit (List Question) := do
  let sheet ← inp
  buildQuestions (sheet.filter (fun r => rowMatches r sec mo))

/-- The function load_questions(selected_section, selected_module) from src/app.py:
any exception is caught and the empty list returned. -/
def load_questions (inp : Except Unit Sheet) (sec mo : Cell) : List Question :=
  match loadQuestionsExc inp sec mo with
  | .ok qs => qs
  | .error _ => []

/-- The values of column `j` down the sheet. -/
def colVals (sheet : Sheet) (j : Nat) : List Cell := sheet.map (fun r => r.iloc j)

/-- Pandas `.unique()`: keep the first occurrence of each value (a run of
NaNs also collapses to one NaN, later skipped or filtered). -/
def dedupFirst : List Cell → List Cell
  | [] => []
  | x :: xs => x :: dedupFirst (xs.filter (fun y => !(y == x)))
termination_by l => l.length
decreasing_by
  simp only [List.length_cons]
  exact Nat.lt_succ_of_le (List.length_filter_le _ _)

/-- The body of the `try:` in `load_sections_and_modules`. -/
def loadSectionsExc (inp : Except Unit Sheet) :
    Except Unit (List (Str × List Str)) := do
  let sheet ← inp
  let sections := dedupFirst (colVals sheet 7)
  .ok (sections.filterMap (fun sec =>
    match sec with
    | none => none
    | some s =>
      some (s, (dedupFirst
        (colVals (sheet.filter (fun r => cellEq (r.iloc 7) sec)) 8)).filterMap id)))

/-- The function load_sections_and_modules() from src/app.py: the section-to-modules
mapping as an ordered association list; exceptions yield the empty map. -/
def load_sections_and_modules (inp : Except Unit Sheet) : List (Str × List Str) :=
  match loadSectionsExc inp with
  | .ok m => m
  | .error _ => []

/-- The Streamlit session state after `initialize_session_state` has run:
every key present.  `start_time` is an abstract timestamp. -/
structure State where
  current_question : Nat
  user_answers : Answers
  exam_submitted : Bool
  exam_started : Bool
  selected_section : Cell
  selected_module : Cell
  start_time : Option Nat
deriving DecidableEq

/-- The raw session mapping: a key may be absent (`none`), as after
`st.session_state.clear()`. -/
structure RawState where
  current_question : Option Nat
  user_answers : Option Answers
  exam_submitted : Option Bool
  exam_started : Option Bool
  selected_section : Option Cell
  selected_module : Option Cell
  start_time : Option (Option Nat)
deriving DecidableEq

/-- The call st.session_state.clear(): every entry removed. -/
def clearRaw : RawState := ⟨none, none, none, none, none, none, none⟩

/-- The function initialize_session_state() from src/app.py: each absent key is set
to its default, present keys are kept. -/
def initialize_session_state (r : RawState) : RawState where
  current_question := some (r.current_question.getD 0)
  user_answers := some (r.user_answers.getD [])
  exam_submitted := some (r.exam_submitted.getD false)
  exam_started := some (r.exam_started.getD false)
  selected_section := some (r.selected_section.getD none)
  selected_module := some (r.selected_module.getD none)
  start_time := some (r.start_time.getD none)

/-- Read an initialized raw session as a `State`. -/
def stateOfRaw (r : RawState) : State where
  current_question := r.current_question.getD 0
  user_answers := r.user_answers.getD []
  exam_submitted := r.exam_submitted.getD false
  exam_started := r.exam_started.getD false
  selected_section := r.selected_section.getD none
  selected_module := r.selected_module.getD none
  start_time := r.start_time.getD none

/-- A fully present raw session. -/
def rawOf (s : State) : RawState :=
  ⟨some s.current_question, some s.user_answers, some s.exam_submitted,
   some s.exam_started, some s.selected_section, some s.selected_module,
   some s.start_time⟩

/-- The state `initialize_session_state` produces from nothing. -/
def initState : State := ⟨0, [], false, false, none, none, none⟩

/-- The question list `main` works with on every run:
`load_questions(st.session_state.selected_section, st.session_state.selected_module)`. -/
def questionsOf (inp : Except Unit Sheet) (s : State) : List Question :=
  load_questions inp s.selected_section s.selected_module

/-- One user interaction with the rendered page. -/
inductive Event where
  | selectSection (sec : Str)
  | selectModule (mo : Str)
  | startExam (t : Nat)
  | prev
  | next
  | selectAnswer (a : Str)
  | jump (i : Nat)
  | exitExam
  | submit
  | returnHome
  | startNew
deriving DecidableEq

/-- One run of `main` reacting to one interaction, written from the button
handlers in `src/app.py`: the home page when the exam has not started, an
early return when no questions load, then the exam page or the results
page.  `Exit Exam` and `Return to Home` clear the session; the next run
re-initializes it, which `stateOfRaw (initialize_session_state clearRaw)`
renders as a `State`. -/
def step (inp : Except Unit Sheet) (s : State) (e : Event) : State :=
  let qs := questionsOf inp s
  if s.exam_started = false then
    match e with
    | .selectSection sec =>
      { s with selected_section := some sec, selected_module := none,
               exam_started := false }
    | .selectModule mo =>
      if s.selected_section.isSome then
        { s with selected_module := some mo, exam_started := false }
      else s
    | .startExam t =>
      if s.selected_section.isSome ∧ s.selected_module.isSome ∧ ¬qs.isEmpty then
        { s with exam_started := true, start_time := some t }
      else s
    | _ => s
  else if qs.isEmpty then s
  else if s.exam_submitted = false then
    match e with
    | .prev =>
      if 0 < s.current_question then
        { s with current_question := s.current_question - 1 }
      else s
    | .next =>
      if s.current_question < qs.length - 1 then
        { s with current_question := s.current_question + 1 }
      else s
    | .selectAnswer a =>
      if a.isEmpty then s
      else { s with user_answers := insertAnswer s.user_answers s.current_question a }
    | .jump i =>
      if i < qs.length then { s with current_question := i } else s
    | .exitExam => stateOfRaw (initialize_session_state clearRaw)
    | .submit =>
      if s.user_answers.length < qs.length then s
      else { s with exam_submitted := true }
    | _ => s
  else
    match e with
    | .returnHome => stateOfRaw (initialize_session_state clearRaw)
    | .startNew =>
      { s with exam_submitted := false, exam_started := false,
               user_answers := [], current_question := 0 }
    | _ => s

/-- Whether index `i` is counted by `calculate_score`: it has a recorded
answer and that answer passes the `startswith` test of the score loop. -/
def scoredCorrect (qs : List Question) (ans : Answers) (i : Nat) : Bool :=
  match qs[i]?, alookup ans i with
  | some q, some ua => scoreTest q ua
  | _, _ => false

/-- A row whose answer-key cell `"ab"` makes `ord` raise inside
`load_questions`. -/
def rowBadKey : Row :=
  ⟨[some (str "Q"), some (str "Paris"), none, none, none, some (str "ab"),
    none, some (str "S"), some (str "M")]⟩

/-- A well-formed demo row: letter-tagged options and a single-letter key. -/
def rowDemo : Row :=
  ⟨[some (str "Q1"), some (str "A) Paris"), some (str "B) London"), none, none,
    some (str "a"), none, some (str "S"), some (str "M")]⟩

/-- A demo spreadsheet input. -/
def sheetDemo : Except Unit Sheet := .ok [rowDemo]

/-- A demo exam-page session state. -/
def examDemoState : State :=
  ⟨0, [], false, true, some (str "S"), some (str "M"), none⟩

/-- The letters "a–d (either case)" named by the spec. -/
def specLetters : List Char := ['a', 'b', 'c', 'd', 'A', 'B', 'C', 'D']

/-- Written from the spec wording for claim C2: remove "a leading single
letter a–d (either case) followed by a closing parenthesis". -/
def specDropKey (s : Str) : Str :=
  match s with
  | c :: p :: rest => if c ∈ specLetters ∧ p = ')' then rest else s
  | _ => s

/-- Written from the spec wording for claim C2: the canonical form of an
answer — leading letter tag removed, surrounding whitespace removed,
lowercased. -/
def spec_normalize (s : Str) : Str := pyLower (pyStrip (specDropKey s))

/-- A row whose answer-key cell is in the listed format `"A)"`. -/
def rowTagKey : Row :=
  ⟨[some (str "Q"), some (str "Paris"), some (str "London"), none, none,
    some (str "A)"), none, some (str "S"), some (str "M")]⟩

/-- A row whose answer-key cell is in the listed format `"a) text"`. -/
def rowTextKey : Row :=
  ⟨[some (str "Q"), some (str "Paris"), some (str "London"), none, none,
    some (str "a) Paris"), none, some (str "S"), some (str "M")]⟩

/-- The uppercase display letter of option position `j`. -/
def optLetterU : Nat → Char
  | 0 => 'A'
  | 1 => 'B'
  | 2 => 'C'
  | 3 => 'D'
  | _ => 'Z'

/-- The lowercase key letter of option position `j`. -/
def optLetterL : Nat → Char
  | 0 => 'a'
  | 1 => 'b'
  | 2 => 'c'
  | 3 => 'd'
  | _ => 'z'

/-- The alphabetical index of a key letter a–d. -/
def letterIdx (c : Char) : Option Nat :=
  if c = 'a' then some 0
  else if c = 'b' then some 1
  else if c = 'c' then some 2
  else if c = 'd' then some 3
  else none

/-- Every option from position `j` on is its display letter, a closing
parenthesis, then a body. -/
def taggedFrom : Nat → List Str → Bool
  | _, [] => true
  | j, o :: rest =>
    (match o with
     | c :: p :: _ => c == optLetterU j && p == ')'
     | _ => false) && taggedFrom (j + 1) rest

/-- All entries pairwise distinct. -/
def allDiff : List Str → Bool
  | [] => true
  | x :: xs => !(xs.contains x) && allDiff xs

/-- A question on which the two grading paths can be compared: a
single-letter key a–d indexing the options, `correct_answer` the indexed
option, at most four options, each option tagged `A) …`, `B) …`, …, with
pairwise distinct normalised bodies. -/
def wellFormedQ (q : Question) : Bool :=
  match q.correct_letter with
  | [c] =>
    match letterIdx c with
    | some k =>
      (q.options[k]? == some q.correct_answer) &&
      decide (q.options.length ≤ 4) && taggedFrom 0 q.options &&
      allDiff (q.options.map normalize_answer)
    | none => false
  | _ => false

/-- Every recorded answer at an index holding a question is one of that
question's option texts. -/
def answersFromOptions (qs : List Question) (ans : Answers) : Bool :=
  ans.all (fun p =>
    match qs[p.1]? with
    | some q => q.options.contains p.2
    | none => true)

/-- A loadable row with plain-text options (no letter tags). -/
def rowPlain : Row :=
  ⟨[some (str "Q"), some (str "Paris"), some (str "London"), none, none,
    some (str "a"), none, some (str "S"), some (str "M")]⟩

/-- The question `load_questions` builds from `rowPlain`. -/
def qPlain : Question :=
  ⟨some (str "Q"), [str "Paris", str "London"], str "a", str "Paris", []⟩

/-- The question built from `rowDemo`, in the scorer's expected format. -/
def qTagged : Question :=
  ⟨some (str "Q1"), [str "A) Paris", str "B) London"], str "a",
    str "A) Paris", []⟩

lemma calcFrom_eq_countP (ans : Answers) (qs : List Question) (i : Nat) :
    calcFrom ans i qs =
      (List.range qs.length).countP (fun j =>
        match qs[j]?, alookup ans (i + j) with
        | some q, some ua => scoreTest q ua
        | _, _ => false) := by
  induction qs generalizing i with
  | nil => simp [calcFrom]
  | cons q rest ih =>
    rw [calcFrom, List.length_cons, List.range_succ_eq_map, List.countP_cons,
      List.countP_map, ih (i + 1)]
    have hcongr :
        (List.range rest.length).countP
            (fun j => match rest[j]?, alookup ans (i + 1 + j) with
              | some q, some ua => scoreTest q ua
              | _, _ => false) =
        (List.range rest.length).countP
            ((fun j => match (q :: rest)[j]?, alookup ans (i + j) with
              | some q, some ua => scoreTest q ua
              | _, _ => false) ∘ Nat.succ) := by
      refine List.countP_congr (fun j _ => ?_)
      have harith : i + 1 + j = i + (j + 1) := by omega
      simp [Function.comp, harith]
    rw [hcongr]
    have h0 : (q :: rest)[0]? = some q := by simp
    cases h : alookup ans i with
    | none => simp [h0, h, Nat.add_comm]
    | some ua =>
      by_cases hst : scoreTest q ua <;> simp [h0, h, hst, Nat.add_comm]

lemma score_fst_eq_countP (qs : List Question) (ans : Answers) :
    (calculate_score qs ans).1 =
      (List.range qs.length).countP (fun i => scoredCorrect qs ans i) := by
  show calcFrom ans 0 qs = _
  rw [calcFrom_eq_countP]
  exact List.countP_congr (fun j _ => by simp [scoredCorrect])

/-- Claim C4: `calculate_score` returns a pair `(correct, total)` where
`total` is the number of questions and `correct` is exactly the number of
question indices whose recorded user answer starts with the question's
correct letter uppercased followed by a closing parenthesis; consequently
`correct ≤ total`, each question contributing at most once. -/
theorem calculate_score_counts_matching_indices (qs : List Question) (ans : Answers) :
    calculate_score qs ans =
      (((List.range qs.length).filter (fun i => scoredCorrect qs ans i)).length,
        qs.length) ∧
    (calculate_score qs ans).1 ≤ qs.length := by
  refine ⟨?_, ?_⟩
  · have h2 : calculate_score qs ans = ((calculate_score qs ans).1, qs.length) := rfl
    rw [h2, score_fst_eq_countP, List.countP_eq_length_filter]
  · calc (calculate_score qs ans).1
        = (List.range qs.length).countP (fun i => scoredCorrect qs ans i) :=
          score_fst_eq_countP qs ans
      _ ≤ (List.range qs.length).length := List.countP_le_length _
      _ = qs.length := List.length_range _

/-- Claim C10: unanswered questions are never graded correct:
`is_answer_correct` returns `false` on a `None` answer, and
`calculate_score` counts only indices whose `scoredCorrect` test passes,
which fails whenever the index has no recorded answer — so missing answers
contribute zero to the score and are marked incorrect in the review. -/
theorem unanswered_never_graded_correct :
    (∀ q : Question, is_answer_correct q none = false) ∧
    (∀ (qs : List Question) (ans : Answers),
      (calculate_score qs ans).1 =
        (List.range qs.length).countP (fun i => scoredCorrect qs ans i)) ∧
    (∀ (qs : List Question) (ans : Answers) (i : Nat),
      alookup ans i = none → scoredCorrect qs ans i = false) := by
  refine ⟨fun q => rfl, score_fst_eq_countP, fun qs ans i h => ?_⟩
  unfold scoredCorrect
  rw [h]
  cases qs[i]? <;> rfl

/-- Witness for claim C10 at a concrete question list and empty answers. -/
theorem unanswered_never_graded_correct_witness :
    scoredCorrect [⟨none, [str "Paris"], str "a", str "Paris", []⟩] [] 0 = false :=
  unanswered_never_graded_correct.2.2
    [⟨none, [str "Paris"], str "a", str "Paris", []⟩] [] 0 rfl

/-- Claim C8: loading never raises at the public interface: `load_questions`
always returns a list and `load_sections_and_modules` a mapping; a missing
or malformed spreadsheet (the `Except.error` input) or any internal
exception makes them return the empty list and the empty mapping. -/
theorem loading_never_raises :
    (∀ sec mo : Cell, load_questions (Except.error ()) sec mo = []) ∧
    load_sections_and_modules (Except.error ()) = [] ∧
    (∀ (inp : Except Unit Sheet) (sec mo : Cell),
      loadQuestionsExc inp sec mo = .error () → load_questions inp sec mo = []) ∧
    (∀ inp : Except Unit Sheet,
      loadSectionsExc inp = .error () → load_sections_and_modules inp = []) := by
  refine ⟨fun sec mo => rfl, rfl, fun inp sec mo h => ?_, fun inp h => ?_⟩
  · unfold load_questions
    rw [h]
  · unfold load_sections_and_modules
    rw [h]

/-- Witness for claim C8: a read failure and an internal exception both
yield the empty results. -/
theorem loading_never_raises_witness :
    load_questions (Except.error ()) (some (str "S")) (some (str "M")) = [] ∧
    load_questions (.ok [rowBadKey]) (some (str "S")) (some (str "M")) = [] :=
  ⟨loading_never_raises.1 (some (str "S")) (some (str "M")),
   loading_never_raises.2.2.1 (.ok [rowBadKey]) (some (str "S")) (some (str "M"))
     (by rfl)⟩

/-- Claim C5: with a non-empty loaded question list and an in-range cursor,
every navigation step (Previous, Next, or a per-question jump button, which
exists for every index below the question count) leaves `current_question`
in range; Previous decrements exactly when the cursor is positive and Next
increments exactly when it is below the last index. -/
theorem navigation_keeps_cursor_in_bounds (inp : Except Unit Sheet) (s : State)
    (hq : questionsOf inp s ≠ [])
    (hst : s.exam_started = true) (hsub : s.exam_submitted = false)
    (hcur : s.current_question < (questionsOf inp s).length) :
    (step inp s .prev).current_question < (questionsOf inp s).length ∧
    (step inp s .next).current_question < (questionsOf inp s).length ∧
    (∀ i, (step inp s (.jump i)).current_question < (questionsOf inp s).length) ∧
    (step inp s .prev).current_question =
      (if 0 < s.current_question then s.current_question - 1
       else s.current_question) ∧
    (step inp s .next).current_question =
      (if s.current_question < (questionsOf inp s).length - 1 then
        s.current_question + 1
       else s.current_question) := by
  have hqe : (questionsOf inp s).isEmpty = false := by
    simp [List.isEmpty_iff, hq]
  refine ⟨?_, ?_, fun i => ?_, ?_, ?_⟩ <;>
    simp only [step, hst, hsub, hqe, Bool.true_eq_false, if_false, ite_false,
      apply_ite State.current_question] <;>
    split_ifs <;> first
    | exact False.elim (by assumption)
    | omega

/-- Witness for claim C5 at the demo exam state. -/
theorem navigation_keeps_cursor_in_bounds_witness :
    (step sheetDemo examDemoState .next).current_question <
      (questionsOf sheetDemo examDemoState).length :=
  (navigation_keeps_cursor_in_bounds sheetDemo examDemoState (by decide) rfl rfl
    (by decide)).2.1

/-- Claim C7: `Exit Exam` on the exam page and `Return to Home` on the
results page run `st.session_state.clear()` (modelled by `clearRaw`, every
entry removed), so the next run, which begins with
`initialize_session_state`, starts from the defaults `initState`. -/
theorem exit_clears_session (inp : Except Unit Sheet) (s : State)
    (hst : s.exam_started = true) (hq : questionsOf inp s ≠ []) :
    (s.exam_submitted = false →
      step inp s .exitExam = stateOfRaw (initialize_session_state clearRaw)) ∧
    (s.exam_submitted = true →
      step inp s .returnHome = stateOfRaw (initialize_session_state clearRaw)) ∧
    initialize_session_state clearRaw = rawOf initState ∧
    stateOfRaw (initialize_session_state clearRaw) = initState := by
  have hqe : (questionsOf inp s).isEmpty = false := by
    simp [List.isEmpty_iff, hq]
  refine ⟨fun hsub => ?_, fun hsub => ?_, rfl, rfl⟩ <;>
    simp [step, hst, hsub, hqe]

/-- Witness for claim C7 at the demo exam state. -/
theorem exit_clears_session_witness :
    step sheetDemo examDemoState .exitExam =
      stateOfRaw (initialize_session_state clearRaw) :=
  (exit_clears_session sheetDemo examDemoState rfl (by decide)).1 rfl

lemma mkQuestion_options (r : Row) (q : Question) (h : mkQuestion r = .ok q) :
    q.options = mkOptions r := by
  unfold mkQuestion at h
  dsimp only at h
  split at h
  · exact absurd h (by simp)
  · cases h
    rfl

lemma buildQuestions_mem (rs : List Row) (qs : List Question)
    (h : buildQuestions rs = .ok qs) :
    ∀ q ∈ qs, ∃ r, mkQuestion r = .ok q := by
  induction rs generalizing qs with
  | nil =>
    cases h
    simp
  | cons r rest ih =>
    unfold buildQuestions at h
    cases hr : mkQuestion r with
    | error e => rw [hr] at h; exact absurd h (by simp [Bind.bind, Except.bind])
    | ok q0 =>
      rw [hr] at h
      cases hb : buildQuestions rest with
      | error e =>
        rw [hb] at h
        exact absurd h (by simp [Bind.bind, Except.bind])
      | ok qs0 =>
        rw [hb] at h
        simp [Bind.bind, Except.bind, Pure.pure, Except.pure] at h
        intro q hq
        rw [← h] at hq
        rcases List.mem_cons.mp hq with hq0 | hqs
        · exact ⟨r, hq0 ▸ hr⟩
        · exact ih qs0 hb q hqs

lemma mkOptions_ne_nil (r : Row) : ∀ o ∈ mkOptions r, o ≠ [] := by
  intro o ho
  have := (List.mem_filter.mp ho).2
  simpa [List.isEmpty_iff] using this

lemma load_questions_options_ne_nil (inp : Except Unit Sheet) (sec mo : Cell)
    (q : Question) (hq : q ∈ load_questions inp sec mo) :
    ∀ o ∈ q.options, o ≠ [] := by
  unfold load_questions at hq
  cases hl : loadQuestionsExc inp sec mo with
  | error e => rw [hl] at hq; exact absurd hq (by simp)
  | ok qs =>
    rw [hl] at hq
    unfold loadQuestionsExc at hl
    cases inp with
    | error e => exact absurd hl (by simp [Bind.bind, Except.bind])
    | ok sheet =>
      simp only [Bind.bind, Except.bind] at hl
      obtain ⟨r, hr⟩ := buildQuestions_mem _ _ hl q hq
      rw [mkQuestion_options r q hr]
      exact mkOptions_ne_nil r

lemma alookup_insertAnswer_self (an : Answers) (k : Nat) (v : Str) :
    alookup (insertAnswer an k v) k = some v := by
  induction an with
  | nil => simp [insertAnswer, alookup]
  | cons p rest ih =>
    by_cases h : p.1 = k <;>
      simp [insertAnswer, alookup, h, ih]

lemma alookup_insertAnswer_ne (an : Answers) (k j : Nat) (v : Str)
    (h : j ≠ k) : alookup (insertAnswer an k v) j = alookup an j := by
  induction an with
  | nil => simp [insertAnswer, alookup, Ne.symm h]
  | cons p rest ih =>
    by_cases hp : p.1 = k
    · simp only [insertAnswer, hp, beq_self_eq_true, if_true]
      have h1 : (k == j) = false := by simp [Ne.symm h]
      simp [alookup, h1, hp, Ne.symm h]
    · have h1 : (p.1 == k) = false := by simp [hp]
      simp [insertAnswer, h1, alookup, ih]

/-- Claim C6: recording a selection is local: on the exam page, choosing an
option of the current question stores exactly that option's text under the
current question index, and leaves every other recorded answer and the
rest of the session state (selected_section, selected_module,
exam_started, exam_submitted, and the cursor) unchanged. -/
theorem answer_recording_is_local (inp : Except Unit Sheet) (s : State)
    (a : Str) (q : Question)
    (hst : s.exam_started = true) (hsub : s.exam_submitted = false)
    (hq : questionsOf inp s ≠ [])
    (hget : (questionsOf inp s)[s.current_question]? = some q)
    (hmem : a ∈ q.options) :
    alookup (step inp s (.selectAnswer a)).user_answers s.current_question =
      some a ∧
    (∀ j, j ≠ s.current_question →
      alookup (step inp s (.selectAnswer a)).user_answers j =
        alookup s.user_answers j) ∧
    (step inp s (.selectAnswer a)).selected_section = s.selected_section ∧
    (step inp s (.selectAnswer a)).selected_module = s.selected_module ∧
    (step inp s (.selectAnswer a)).exam_started = s.exam_started ∧
    (step inp s (.selectAnswer a)).exam_submitted = s.exam_submitted ∧
    (step inp s (.selectAnswer a)).current_question = s.current_question := by
  have ha : a ≠ [] :=
    load_questions_options_ne_nil inp s.selected_section s.selected_module q
      (List.getElem?_mem hget) a hmem
  have hae : a.isEmpty = false := by
    simp [List.isEmpty_iff, ha]
  have hqe : (questionsOf inp s).isEmpty = false := by
    simp [List.isEmpty_iff, hq]
  have hstep : step inp s (.selectAnswer a) =
      { s with user_answers := insertAnswer s.user_answers s.current_question a } := by
    simp [step, hst, hsub, hqe, hae]
  rw [hstep]
  exact ⟨alookup_insertAnswer_self _ _ _,
    fun j hj => alookup_insertAnswer_ne _ _ _ _ hj, rfl, rfl, rfl, rfl, rfl⟩

/-- Witness for claim C6: the demo selection is stored at the cursor. -/
theorem answer_recording_is_local_witness :
    alookup (step sheetDemo examDemoState
        (.selectAnswer (str "A) Paris"))).user_answers
      examDemoState.current_question = some (str "A) Paris") :=
  (answer_recording_is_local sheetDemo examDemoState (str "A) Paris")
    ⟨some (str "Q1"), [str "A) Paris", str "B) London"], str "a",
      str "A) Paris", []⟩
    rfl rfl (by decide) (by decide) (by decide)).1

lemma alookup_isSome_iff (an : Answers) (k : Nat) :
    (alookup an k).isSome = true ↔ k ∈ akeys an := by
  induction an with
  | nil => simp [alookup, akeys]
  | cons p rest ih =>
    by_cases h : p.1 = k
    · simp [alookup, akeys, h]
    · have h1 : (p.1 == k) = false := by simp [h]
      simp [alookup, akeys, h1, ih, Ne.symm h]

lemma mem_akeys_insertAnswer (an : Answers) (k : Nat) (v : Str) (x : Nat)
    (hx : x ∈ akeys (insertAnswer an k v)) : x ∈ akeys an ∨ x = k := by
  induction an with
  | nil => simpa [insertAnswer, akeys] using hx
  | cons p rest ih =>
    by_cases h : p.1 = k
    · simp only [insertAnswer, h, beq_self_eq_true, if_true, akeys,
        List.map_cons, List.mem_cons] at hx
      rcases hx with hx | hx
      · exact Or.inr hx
      · exact Or.inl (by simp [akeys, hx])
    · have h1 : (p.1 == k) = false := by simp [h]
      simp only [insertAnswer, h1, Bool.false_eq_true, if_false, akeys,
        List.map_cons, List.mem_cons] at hx
      rcases hx with hx | hx
      · exact Or.inl (by simp [akeys, hx])
      · rcases ih hx with hm | hm
        · exact Or.inl (by simp [akeys]; exact Or.inr (by simpa [akeys] using hm))
        · exact Or.inr hm

lemma akeys_insertAnswer_nodup (an : Answers) (k : Nat) (v : Str)
    (h : (akeys an).Nodup) : (akeys (insertAnswer an k v)).Nodup := by
  induction an with
  | nil => simp [insertAnswer, akeys]
  | cons p rest ih =>
    rw [akeys, List.map_cons, List.nodup_cons] at h
    by_cases hp : p.1 = k
    · simp only [insertAnswer, hp, beq_self_eq_true, if_true, akeys,
        List.map_cons, List.nodup_cons]
      exact ⟨hp ▸ h.1, h.2⟩
    · have h1 : (p.1 == k) = false := by simp [hp]
      simp only [insertAnswer, h1, Bool.false_eq_true, if_false, akeys,
        List.map_cons, List.nodup_cons]
      refine ⟨fun hmem => ?_, ih h.2⟩
      rcases mem_akeys_insertAnswer rest k v p.1 hmem with hm | hm
      · exact h.1 hm
      · exact hp hm

lemma alookup_complete (an : Answers) (n : Nat) (hnd : (akeys an).Nodup)
    (hlt : ∀ k ∈ akeys an, k < n) (hlen : n ≤ an.length) :
    ∀ i, i < n → (alookup an i).isSome = true := by
  intro i hi
  rw [alookup_isSome_iff]
  have hsub : (akeys an).toFinset ⊆ Finset.range n := by
    intro x hx
    exact Finset.mem_range.mpr (hlt x (List.mem_toFinset.mp hx))
  have hcard : an.length ≤ (akeys an).toFinset.card := by
    rw [List.toFinset_card_of_nodup hnd]
    simp [akeys]
  have heq : (akeys an).toFinset = Finset.range n :=
    Finset.eq_of_subset_of_card_le hsub
      (by simpa using le_trans hlen hcard)
  have hmem : i ∈ (akeys an).toFinset := by
    rw [heq]
    exact Finset.mem_range.mpr hi
  exact List.mem_toFinset.mp hmem

lemma step_submitted_eq (inp : Except Unit Sheet) (s : State) (e : Event) :
    (step inp s e).exam_submitted = s.exam_submitted ∨
    (step inp s e).exam_submitted = false ∨
    ((step inp s e).exam_submitted = true ∧
      (questionsOf inp s).length ≤ s.user_answers.length) := by
  cases e <;>
    simp only [step] <;>
    split_ifs <;>
    simp [stateOfRaw, initialize_session_state, clearRaw] <;>
    omega

lemma step_answers_cases (inp : Except Unit Sheet) (s : State) (e : Event) :
    (step inp s e).user_answers = s.user_answers ∨
    (step inp s e).user_answers = [] ∨
    ∃ a, (step inp s e).user_answers =
      insertAnswer s.user_answers s.current_question a := by
  cases e <;>
    simp only [step] <;>
    split_ifs <;>
    simp [stateOfRaw, initialize_session_state, clearRaw]

/-- Claim C9: submission requires completeness: `exam_submitted` can only
become true when the recorded answers number at least the questions;
an incomplete `Submit Exam` leaves the state unchanged (only a warning is
shown); and a complete answer dict whose keys are distinct question
indices in range — which every step preserves — has an answer recorded for
every question index, so the results screen finds one for each question. -/
theorem submission_requires_completeness (inp : Except Unit Sheet) (s : State)
    (e : Event) :
    (s.exam_submitted = false → (step inp s e).exam_submitted = true →
      (questionsOf inp s).length ≤ s.user_answers.length) ∧
    (s.exam_started = true → s.exam_submitted = false →
      questionsOf inp s ≠ [] →
      s.user_answers.length < (questionsOf inp s).length →
      step inp s .submit = s) ∧
    ((akeys s.user_answers).Nodup →
      (∀ k ∈ akeys s.user_answers, k < (questionsOf inp s).length) →
      (questionsOf inp s).length ≤ s.user_answers.length →
      ∀ i, i < (questionsOf inp s).length →
        (alookup s.user_answers i).isSome = true) ∧
    (s.exam_started = true → s.exam_submitted = false →
      s.current_question < (questionsOf inp s).length →
      (akeys s.user_answers).Nodup →
      (∀ k ∈ akeys s.user_answers, k < (questionsOf inp s).length) →
      (akeys (step inp s e).user_answers).Nodup ∧
        ∀ k ∈ akeys (step inp s e).user_answers,
          k < (questionsOf inp s).length) := by
  refine ⟨fun hsub htrue => ?_, fun hst hsub hq hlt => ?_,
    fun hnd hb hl => alookup_complete _ _ hnd hb hl,
    fun hst hsub hcur hnd hb => ?_⟩
  · rcases step_submitted_eq inp s e with h | h | h
    · rw [h, hsub] at htrue
      exact absurd htrue (by simp)
    · rw [h] at htrue
      exact absurd htrue (by simp)
    · exact h.2
  · have hqe : (questionsOf inp s).isEmpty = false := by
      simp [List.isEmpty_iff, hq]
    simp [step, hst, hsub, hqe, hlt]
  · rcases step_answers_cases inp s e with h | h | ⟨a, h⟩
    · rw [h]
      exact ⟨hnd, hb⟩
    · rw [h]
      simp [akeys]
    · rw [h]
      refine ⟨akeys_insertAnswer_nodup _ _ _ hnd, fun k hk => ?_⟩
      rcases mem_akeys_insertAnswer _ _ _ _ hk with hm | hm
      · exact hb k hm
      · exact hm ▸ hcur

/-- Witness for claim C9: an incomplete submit leaves the demo state as is. -/
theorem submission_requires_completeness_witness :
    step sheetDemo examDemoState .submit = examDemoState :=
  (submission_requires_completeness sheetDemo examDemoState .submit).2.1 rfl rfl
    (by decide) (by decide)

lemma charToNat_ofNat (n : Nat) (h : n < 55296) : (Char.ofNat n).toNat = n := by
  have hv : n.isValidChar := Or.inl h
  rw [Char.ofNat, dif_pos hv]
  rfl

lemma pyLowerChar_toNat (c : Char) :
    (pyLowerChar c).toNat =
      if 65 ≤ c.toNat ∧ c.toNat ≤ 90 then c.toNat + 32 else c.toNat := by
  unfold pyLowerChar
  split
  · next h => exact charToNat_ofNat _ (by omega)
  · next h => rfl

lemma pyIsSpace_iff (c : Char) :
    pyIsSpace c = true ↔
      (c.toNat = 32 ∨ c.toNat = 9 ∨ c.toNat = 10 ∨ c.toNat = 13 ∨
        c.toNat = 11 ∨ c.toNat = 12) := by
  simp [pyIsSpace, or_assoc]

lemma isAnswerLetter_iff (c : Char) :
    isAnswerLetter c = true ↔
      ((97 ≤ c.toNat ∧ c.toNat ≤ 100) ∨ (65 ≤ c.toNat ∧ c.toNat ≤ 68)) := by
  simp [isAnswerLetter]

lemma pyIsSpace_pyLowerChar (c : Char) :
    pyIsSpace (pyLowerChar c) = pyIsSpace c := by
  rw [Bool.eq_iff_iff, pyIsSpace_iff, pyIsSpace_iff, pyLowerChar_toNat]
  split_ifs with h <;> omega

lemma isAnswerLetter_pyLowerChar (c : Char) :
    isAnswerLetter (pyLowerChar c) = isAnswerLetter c := by
  rw [Bool.eq_iff_iff, isAnswerLetter_iff, isAnswerLetter_iff, pyLowerChar_toNat]
  split_ifs with h <;> omega

lemma char_toNat_inj {a b : Char} (h : a.toNat = b.toNat) : a = b := by
  calc a = Char.ofNat a.toNat := (Char.ofNat_toNat a).symm
    _ = Char.ofNat b.toNat := by rw [h]
    _ = b := Char.ofNat_toNat b

lemma pyLowerChar_rparen_iff (c : Char) : pyLowerChar c = ')' ↔ c = ')' := by
  constructor
  · intro h
    have ht : (pyLowerChar c).toNat = 41 := by
      rw [h]
      decide
    rw [pyLowerChar_toNat] at ht
    split_ifs at ht with hcase
    · omega
    · exact char_toNat_inj (ht.trans (by decide))
  · intro h
    rw [h]
    decide

lemma pyLowerChar_idem (c : Char) :
    pyLowerChar (pyLowerChar c) = pyLowerChar c := by
  apply char_toNat_inj
  rw [pyLowerChar_toNat (pyLowerChar c), pyLowerChar_toNat c]
  split_ifs <;> omega

lemma pyLower_idem (s : Str) : pyLower (pyLower s) = pyLower s := by
  unfold pyLower
  rw [List.map_map]
  rw [show pyLowerChar ∘ pyLowerChar = pyLowerChar from funext pyLowerChar_idem]

lemma pyStrip_pyLower (s : Str) : pyStrip (pyLower s) = pyLower (pyStrip s) := by
  unfold pyStrip pyLower
  rw [List.dropWhile_map, ← List.map_reverse, List.dropWhile_map, ← List.map_reverse]
  rw [show pyIsSpace ∘ pyLowerChar = pyIsSpace from funext pyIsSpace_pyLowerChar]

lemma dropLetterTag_pyLower (s : Str) :
    dropLetterTag (pyLower s) = pyLower (dropLetterTag s) := by
  match s with
  | [] => rfl
  | [c] => rfl
  | c :: p :: rest =>
    show dropLetterTag (pyLowerChar c :: pyLowerChar p :: rest.map pyLowerChar) = _
    have hp : (pyLowerChar p == ')') = (p == ')') := by
      by_cases h : p = ')'
      · rw [h]
        decide
      · have h2 : ¬ pyLowerChar p = ')' := fun hh => h ((pyLowerChar_rparen_iff p).mp hh)
        simp [h, h2]
    simp only [dropLetterTag, isAnswerLetter_pyLowerChar, hp]
    by_cases hc : (isAnswerLetter c && p == ')') = true
    · simp [hc, pyLower]
    · simp only [Bool.not_eq_true] at hc
      simp [hc, pyLower]

lemma dropLetterTag_of_no_tag (u : Str) (hu : startsLetterTag u = false) :
    dropLetterTag u = u := by
  cases u with
  | nil => rfl
  | cons x t =>
    cases t with
    | nil => rfl
    | cons y t2 =>
      simp only [startsLetterTag] at hu
      simp [dropLetterTag, hu]

lemma normalize_pyLower (s : Str) :
    normalize_answer (pyLower s) = normalize_answer s := by
  unfold normalize_answer
  rw [dropLetterTag_pyLower, pyStrip_pyLower, pyLower_idem]

lemma mem_specLetters_iff (c : Char) :
    c ∈ specLetters ↔ isAnswerLetter c = true := by
  rw [isAnswerLetter_iff]
  simp only [specLetters, List.mem_cons, List.not_mem_nil, or_false]
  constructor
  · rintro (rfl | rfl | rfl | rfl | rfl | rfl | rfl | rfl) <;> decide
  · intro h
    have h8 : c.toNat = 97 ∨ c.toNat = 98 ∨ c.toNat = 99 ∨ c.toNat = 100 ∨
        c.toNat = 65 ∨ c.toNat = 66 ∨ c.toNat = 67 ∨ c.toNat = 68 := by
      omega
    rcases h8 with ht | ht | ht | ht | ht | ht | ht | ht
    · exact Or.inl (char_toNat_inj (ht.trans (by decide)))
    · exact Or.inr (Or.inl (char_toNat_inj (ht.trans (by decide))))
    · exact Or.inr (Or.inr (Or.inl (char_toNat_inj (ht.trans (by decide)))))
    · exact Or.inr (Or.inr (Or.inr (Or.inl (char_toNat_inj (ht.trans (by decide))))))
    · exact Or.inr (Or.inr (Or.inr (Or.inr (Or.inl
        (char_toNat_inj (ht.trans (by decide)))))))
    · exact Or.inr (Or.inr (Or.inr (Or.inr (Or.inr (Or.inl
        (char_toNat_inj (ht.trans (by decide))))))))
    · exact Or.inr (Or.inr (Or.inr (Or.inr (Or.inr (Or.inr (Or.inl
        (char_toNat_inj (ht.trans (by decide)))))))))
    · exact Or.inr (Or.inr (Or.inr (Or.inr (Or.inr (Or.inr (Or.inr
        (char_toNat_inj (ht.trans (by decide)))))))))

lemma specDropKey_eq (s : Str) : specDropKey s = dropLetterTag s := by
  match s with
  | [] => rfl
  | [c] => rfl
  | c :: p :: rest =>
    simp only [specDropKey, dropLetterTag]
    by_cases hc : isAnswerLetter c = true
    · by_cases hp : p = ')'
      · rw [if_pos ⟨(mem_specLetters_iff c).mpr hc, hp⟩, if_pos (by simp [hc, hp])]
      · rw [if_neg (fun h => hp h.2), if_neg (by simp [hp])]
    · rw [if_neg (fun h => hc ((mem_specLetters_iff c).mp h.1)),
        if_neg (by simp only [Bool.and_eq_true]; exact fun h => hc h.1)]

/-- Claim C2: `is_answer_correct` compares the user answer and the stored
correct answer up to the spec's canonicalisation — leading letter tag a–d
(either case) plus `)` removed, whitespace stripped, lowercased — and in
particular lowercasing an answer, or tagging an untagged answer with a
letter-parenthesis prefix, never changes the verdict. -/
theorem answer_comparison_normalized :
    (∀ (q : Question) (u : Str),
      is_answer_correct q (some u) = true ↔
        spec_normalize u = spec_normalize q.correct_answer) ∧
    (∀ (q : Question) (u : Str),
      is_answer_correct q (some (pyLower u)) = is_answer_correct q (some u)) ∧
    (∀ (q : Question) (u : Str) (c : Char),
      isAnswerLetter c = true → startsLetterTag u = false →
      is_answer_correct q (some (c :: ')' :: u)) =
        is_answer_correct q (some u)) := by
  have hspec : ∀ s, spec_normalize s = normalize_answer s := by
    intro s
    unfold spec_normalize normalize_answer
    rw [specDropKey_eq]
  refine ⟨fun q u => ?_, fun q u => ?_, fun q u c hc hu => ?_⟩
  · rw [hspec, hspec]
    simp [is_answer_correct]
  · show (normalize_answer (pyLower u) == _) = (normalize_answer u == _)
    rw [normalize_pyLower]
  · show (normalize_answer (c :: ')' :: u) == _) = (normalize_answer u == _)
    have hn : normalize_answer (c :: ')' :: u) = normalize_answer u := by
      unfold normalize_answer
      have h1 : dropLetterTag (c :: ')' :: u) = u := by
        simp [dropLetterTag, hc]
      rw [h1, dropLetterTag_of_no_tag u hu]
    rw [hn]

/-- Witness for claim C2: prefixing an untagged answer with `b)` keeps it
graded the same. -/
theorem answer_comparison_normalized_witness :
    is_answer_correct ⟨none, [], [], str "Paris", []⟩
        (some ('b' :: ')' :: str "Paris")) =
      is_answer_correct ⟨none, [], [], str "Paris", []⟩ (some (str "Paris")) :=
  answer_comparison_normalized.2.2 ⟨none, [], [], str "Paris", []⟩
    (str "Paris") 'b' (by decide) (by decide)

/-- Counterexample to claim C3 as stated: for the listed key formats `"A)"`
and `"a) text"` the multi-character key makes `ord` raise, the exception
is caught, and `load_questions` returns `[]` — the row is dropped (no
entry with the designated option text is produced). -/
theorem key_format_counterexample :
    load_questions (.ok [rowTagKey]) (some (str "S")) (some (str "M")) = [] ∧
    loadQuestionsExc (.ok [rowTagKey]) (some (str "S")) (some (str "M")) =
      .error () ∧
    load_questions (.ok [rowTextKey]) (some (str "S")) (some (str "M")) = [] :=
  ⟨rfl, rfl, rfl⟩

/-- Claim C3 (amended): only single-character keys are mapped: when the key
cell strips and lowercases to one character `c` with `97 ≤ c` and
alphabetical index `c - 97` inside the options list, the row yields a
question entry whose `correct_answer` is the option at that index, and a
matching one-row sheet loads to exactly that entry.  (Multi-character
keys — the `"A)"`, `"a) text"`, and longer plain-text formats — instead
raise internally, and `load_questions` returns `[]`.) -/
theorem single_letter_key_maps_to_option (r : Row) (c : Char)
    (hcl : mkCorrectLetter r = [c]) (hge : 97 ≤ c.toNat)
    (hlt : c.toNat - 97 < (mkOptions r).length) :
    mkQuestion r = .ok
      ⟨r.iloc 0, mkOptions r, [c],
        (mkOptions r).getD (c.toNat - 97) [], cellStr (r.iloc 6)⟩ ∧
    ∀ (sec mo : Cell), rowMatches r sec mo = true →
      load_questions (.ok [r]) sec mo =
        [⟨r.iloc 0, mkOptions r, [c],
          (mkOptions r).getD (c.toNat - 97) [], cellStr (r.iloc 6)⟩] := by
  have hget : pyGetItem (mkOptions r) ((c.toNat : Int) - 97) =
      .ok ((mkOptions r).getD (c.toNat - 97) []) := by
    unfold pyGetItem
    have h0 : ¬((c.toNat : Int) - 97 < 0) := by omega
    rw [if_neg h0, if_pos (by constructor <;> omega)]
    have ht : ((c.toNat : Int) - 97).toNat = c.toNat - 97 := by omega
    rw [ht]
  have hmk : mkQuestion r = .ok
      ⟨r.iloc 0, mkOptions r, [c],
        (mkOptions r).getD (c.toNat - 97) [], cellStr (r.iloc 6)⟩ := by
    unfold mkQuestion
    rw [hcl]
    simp [pyOrd, Bind.bind, Except.bind, hget]
  refine ⟨hmk, fun sec mo hm => ?_⟩
  unfold load_questions loadQuestionsExc
  simp [Bind.bind, Except.bind, List.filter, hm, buildQuestions, hmk]

/-- Witness for claim C3 (amended) at the demo row with key `"a"`. -/
theorem single_letter_key_maps_to_option_witness :
    load_questions (.ok [rowDemo]) (some (str "S")) (some (str "M")) =
      [⟨rowDemo.iloc 0, mkOptions rowDemo, ['a'],
        (mkOptions rowDemo).getD (Char.toNat 'a' - 97) [],
        cellStr (rowDemo.iloc 6)⟩] :=
  (single_letter_key_maps_to_option rowDemo 'a' (by decide) (by decide)
    (by decide)).2 (some (str "S")) (some (str "M")) (by decide)

/-- Counterexample to claim C1 as stated: for the loaded question list of
`rowPlain` and the recorded answer `"Paris"` (the correct option's own
text), the review path marks the question `✓ Correct` but
`calculate_score` returns 0 — the two grading paths disagree. -/
theorem grading_paths_disagree :
    load_questions (.ok [rowPlain]) (some (str "S")) (some (str "M")) =
      [qPlain] ∧
    (calculate_score [qPlain] [(0, str "Paris")]).1 = 0 ∧
    reviewCount [(0, str "Paris")] 0 [qPlain] = 1 ∧
    (calculate_score [qPlain] [(0, str "Paris")]).1 ≠
      reviewCount [(0, str "Paris")] 0 [qPlain] := by
  refine ⟨rfl, rfl, ?_, ?_⟩ <;> decide

lemma isPrefixOf_two (u x : Char) (t : Str) :
    ([u, ')'] : Str).isPrefixOf (x :: ')' :: t) = (u == x) := by
  simp [List.isPrefixOf]

lemma letterIdx_some (c : Char) (k : Nat) (h : letterIdx c = some k) :
    k < 4 ∧ c = optLetterL k := by
  unfold letterIdx at h
  split_ifs at h with h1 h2 h3 h4 <;> injection h with hk <;> subst hk
  · exact ⟨by omega, h1⟩
  · exact ⟨by omega, h2⟩
  · exact ⟨by omega, h3⟩
  · exact ⟨by omega, h4⟩

lemma taggedFrom_get (l : List Str) : ∀ (m j : Nat) (o : Str),
    taggedFrom m l = true → l[j]? = some o →
    ∃ body, o = optLetterU (m + j) :: ')' :: body := by
  induction l with
  | nil =>
    intro m j o _ h
    simp at h
  | cons x rest ih =>
    intro m j o ht hg
    cases x with
    | nil =>
      simp [taggedFrom] at ht
    | cons c t =>
      cases t with
      | nil =>
        simp [taggedFrom] at ht
      | cons p tail =>
        simp only [taggedFrom, Bool.and_eq_true] at ht
        obtain ⟨⟨hc, hp⟩, hrest⟩ := ht
        cases j with
        | zero =>
          have hxo : (c :: p :: tail : Str) = o := by simpa using hg
          refine ⟨tail, ?_⟩
          rw [← hxo, Nat.add_zero, ← (beq_iff_eq.mp hc), ← (beq_iff_eq.mp hp)]
        | succ j2 =>
          obtain ⟨body, hb⟩ := ih (m + 1) j2 o hrest (by simpa using hg)
          exact ⟨body, by
            rw [hb, show m + 1 + j2 = m + (j2 + 1) from by omega]⟩

lemma allDiff_get (l : List Str) : ∀ (i j : Nat) (x : Str),
    allDiff l = true → l[i]? = some x → l[j]? = some x → i = j := by
  induction l with
  | nil =>
    intro i j x _ hi _
    simp at hi
  | cons a rest ih =>
    intro i j x had hi hj
    rw [allDiff, Bool.and_eq_true] at had
    obtain ⟨hnc, hrest⟩ := had
    have hna : a ∉ rest := by simpa using hnc
    cases i with
    | zero =>
      cases j with
      | zero => rfl
      | succ j2 =>
        exfalso
        have hxa : a = x := by simpa using hi
        exact hna (hxa ▸ List.getElem?_mem (by simpa using hj))
    | succ i2 =>
      cases j with
      | zero =>
        exfalso
        have hxa : a = x := by simpa using hj
        exact hna (hxa ▸ List.getElem?_mem (by simpa using hi))
      | succ j2 =>
        have := ih i2 j2 x hrest (by simpa using hi) (by simpa using hj)
        omega

lemma score_iff_review (q : Question) (a : Str)
    (hw : wellFormedQ q = true) (hmem : a ∈ q.options) :
    scoreTest q a =
      (normalize_answer a == normalize_answer q.correct_answer) := by
  cases hqcl : q.correct_letter with
  | nil =>
    simp [wellFormedQ, hqcl] at hw
  | cons c t =>
    cases t with
    | cons c2 t2 =>
      simp [wellFormedQ, hqcl] at hw
    | nil =>
      cases hidx : letterIdx c with
      | none =>
        simp [wellFormedQ, hqcl, hidx] at hw
      | some k =>
        simp only [wellFormedQ, hqcl, hidx, Bool.and_eq_true] at hw
        obtain ⟨⟨⟨h1, h2⟩, h3⟩, h4⟩ := hw
        obtain ⟨hk4, hcl⟩ := letterIdx_some c k hidx
        have hca : q.options[k]? = some q.correct_answer := by
          simpa using h1
        have hlen4 : q.options.length ≤ 4 := by
          simpa using h2
        obtain ⟨j, hj⟩ := List.mem_iff_getElem?.mp hmem
        have hjlen : j < q.options.length := by
          rcases List.getElem?_eq_some_iff.mp hj with ⟨h, _⟩
          exact h
        have hj4 : j < 4 := lt_of_lt_of_le hjlen hlen4
        obtain ⟨bj, hbj⟩ := taggedFrom_get q.options 0 j a h3 hj
        obtain ⟨bk, hbk⟩ := taggedFrom_get q.options 0 k q.correct_answer h3 hca
        rw [Nat.zero_add] at hbj hbk
        have hsc : scoreTest q a = (pyUpperChar (optLetterL k) == optLetterU j) := by
          unfold scoreTest
          rw [hqcl, hcl, hbj]
          simp [pyUpper, isPrefixOf_two]
        have hcmp : (pyUpperChar (optLetterL k) == optLetterU j) =
            decide (k = j) := by
          interval_cases k <;> interval_cases j <;> decide
        have hrev : (normalize_answer a == normalize_answer q.correct_answer) =
            decide (k = j) := by
          by_cases hkj : k = j
          · subst hkj
            rw [hj] at hca
            rw [Option.some_inj.mp hca]
            simp
          · have hne : normalize_answer a ≠ normalize_answer q.correct_answer := by
              intro heqn
              apply hkj
              refine allDiff_get (q.options.map normalize_answer) k j
                (normalize_answer a) h4 ?_ ?_
              · rw [List.getElem?_map, hca]
                simp [heqn]
              · rw [List.getElem?_map, hj]
                rfl
            have hb : (normalize_answer a == normalize_answer q.correct_answer)
                = false := by
              simpa using hne
            rw [hb]
            simp [hkj]
        rw [hsc, hcmp, hrev]

lemma alookup_mem (an : Answers) (k : Nat) (v : Str)
    (h : alookup an k = some v) : (k, v) ∈ an := by
  induction an with
  | nil => simp [alookup] at h
  | cons p rest ih =>
    obtain ⟨pk, pv⟩ := p
    rw [alookup] at h
    by_cases hp : pk = k
    · rw [if_pos (by simp [hp])] at h
      have hv : pv = v := by simpa using h
      exact List.mem_cons.mpr (Or.inl (by rw [hp, hv]))
    · rw [if_neg (by simp [hp])] at h
      exact List.mem_cons.mpr (Or.inr (ih h))

lemma calc_eq_review_from (ans : Answers) : ∀ (qs : List Question) (i : Nat),
    (∀ (j : Nat) (q : Question), qs[j]? = some q → wellFormedQ q = true) →
    (∀ (j : Nat) (q : Question) (a : Str),
      qs[j]? = some q → alookup ans (i + j) = some a → a ∈ q.options) →
    calcFrom ans i qs = reviewCount ans i qs := by
  intro qs
  induction qs with
  | nil =>
    intro i _ _
    rfl
  | cons q rest ih =>
    intro i hw hmem
    rw [calcFrom, reviewCount]
    have htail : calcFrom ans (i + 1) rest = reviewCount ans (i + 1) rest := by
      refine ih (i + 1) (fun j q2 hj => hw (j + 1) q2 (by simpa using hj))
        (fun j q2 a hj ha => hmem (j + 1) q2 a (by simpa using hj) ?_)
      rw [show i + (j + 1) = i + 1 + j from by omega]
      exact ha
    rw [htail]
    congr 1
    cases hl : alookup ans i with
    | none => rfl
    | some a =>
      have hq0 : (q :: rest)[0]? = some q := by simp
      have hmem0 : a ∈ q.options := hmem 0 q a hq0 (by rw [Nat.add_zero]; exact hl)
      have hsr := score_iff_review q a (hw 0 q hq0) hmem0
      rw [show is_answer_correct q (some a) =
          (normalize_answer a == normalize_answer q.correct_answer) from rfl,
        ← hsr]

/-- Claim C1 (amended): the grading paths agree exactly on the option
formats the scorer expects: when every question is well formed in the
sense of `wellFormedQ` (letter-tagged options `A) …`, `B) …` with distinct
normalised bodies, a single-letter key, and `correct_answer` the keyed
option) and every recorded answer is one of the matching question's
options, the score of `calculate_score` equals the number of questions
the review screen marks correct.  On other data the two paths can
disagree, e.g. on plain-text options. -/
theorem grading_paths_agree (qs : List Question) (ans : Answers)
    (hw : qs.all wellFormedQ = true)
    (ha : answersFromOptions qs ans = true) :
    (calculate_score qs ans).1 = reviewCount ans 0 qs := by
  show calcFrom ans 0 qs = reviewCount ans 0 qs
  apply calc_eq_review_from
  · intro j q hj
    exact List.all_eq_true.mp hw q (List.getElem?_mem hj)
  · intro j q a hj hl
    rw [Nat.zero_add] at hl
    have hpm := alookup_mem ans j a hl
    have hall := List.all_eq_true.mp ha (j, a) hpm
    rw [show ((j, a) : Nat × Str).1 = j from rfl] at hall
    rw [hj] at hall
    simpa using hall

/-- Witness for claim C1 (amended): on a tagged-option question the two
paths produce the same count. -/
theorem grading_paths_agree_witness :
    (calculate_score [qTagged] [(0, str "A) Paris")]).1 =
      reviewCount [(0, str "A) Paris")] 0 [qTagged] :=
  grading_paths_agree [qTagged] [(0, str "A) Paris")] (by decide) (by decide)
